import Mathlib

/-!
Verification of the procedural audio engine in `src/backend/audio_processor.py`
(Screen-to-Song).  The Python functions are shallowly embedded over `ℚ`
(exact-rational semantics for the float arithmetic), with the external
library calls (librosa, pedalboard, numpy randomness, transcendental
functions) passed in as explicit oracle parameters.  All call sites in the
repository use `SAMPLE_RATE = 44100`, so functions whose `sr` argument is
always the default are embedded at that rate.
-/

namespace Songify

/-- Python `int()` applied to a float/rational: truncation toward zero. -/
def pyInt (q : ℚ) : ℤ := Int.tdiv q.num (q.den : ℤ)

/-- Numpy `np.linspace a b n`: `n` evenly spaced points from `a` to `b` inclusive
(`[a]` when `n = 1`, `[]` when `n = 0`). -/
def linspace (a b : ℚ) (n : ℕ) : List ℚ :=
  (List.range n).map
    (fun k : ℕ => if n ≤ 1 then a else a + (b - a) * (k : ℚ) / ((n : ℚ) - 1))

/-- Python `int(np.ceil q)` for the nonnegative quantities the code uses. -/
def natCeil (q : ℚ) : ℕ := (Int.ceil q).toNat

/-- Prefix test on character lists, written out. -/
def leadsWith : List Char → List Char → Bool
  | [], _ => true
  | _ :: _, [] => false
  | a :: as, b :: bs => a == b && leadsWith as bs

/-- Python `needle in hay` substring test on character lists. -/
def hasSub (needle : List Char) : List Char → Bool
  | [] => needle.isEmpty
  | c :: rest => leadsWith needle (c :: rest) || hasSub needle rest

/-- Python `str.lower` (ASCII case folding as used by the mood strings). -/
def strLower (s : String) : String := ⟨s.data.map Char.toLower⟩

/-- Python `w in mood_lower` for one keyword. -/
def moodHas (m : String) (w : String) : Bool := hasSub w.data m.data

/-- Python `any(w in mood_lower for w in ws)`. -/
def moodHasAny (m : String) (ws : List String) : Bool := ws.any (fun w => moodHas m w)

/-- Embedding of `get_melody_freqs_for_mood` (audio_processor.py:21-34):
case-insensitive substring matching against five ordered keyword groups,
first match wins, returning `(base_freq, melody_freqs)`. -/
def get_melody_freqs_for_mood (mood : String) : ℚ × List ℚ :=
  let m := strLower mood
  if moodHasAny m ["calm", "peaceful", "serene", "relaxed", "lo-fi"] then
    (220, [220, 247, 277, 330, 370])
  else if moodHasAny m ["energetic", "exciting", "upbeat", "edm", "pop"] then
    (440, [440, 494, 523, 587, 659])
  else if moodHasAny m ["dark", "mysterious", "ominous", "haunting"] then
    (110, [110, 123, 131, 147, 165])
  else if moodHasAny m ["cosmic", "ethereal", "dreamy", "ambient", "jazz"] then
    (330, [330, 370, 415, 440, 494])
  else
    (26163/100, [262, 294, 330, 349, 392])

/-- Embedding of the pitch-shift amount computed in `apply_vocal_effects`
(audio_processor.py:77-81): `target_freq = melody_freqs[len(melody_freqs)//2]`,
`semitones = 12 * log2(target_freq / base_freq)`,
`shift = max(4.0, semitones * 0.7 + 4.0)`.  `np.log2` is an oracle
parameter `lg`. -/
def semitonesShift (lg : ℚ → ℚ) (mood : String) : ℚ :=
  max 4 (12 * lg ((get_melody_freqs_for_mood mood).2.getD
      ((get_melody_freqs_for_mood mood).2.length / 2) 0 /
      (get_melody_freqs_for_mood mood).1) * (7/10) + 4)

/-- Build a list of length `L` from an index function (numpy-array style). -/
def tabulate (L : ℕ) (f : ℕ → ℚ) : List ℚ := (List.range L).map f

/-- Numpy `np.mean(xs ** 2)`: mean of the squared samples. -/
def meanSq (xs : List ℚ) : ℚ := (xs.map (fun x => x * x)).sum / xs.length

/-- The write `vocal_envelope[i:i+w] = max(vocal_envelope[i], v)` (audio_processor.py:277):
numpy slice assignment of the scalar `max(env[i], v)` to the window `[i, i+w)`;
positions outside the window keep their values, out-of-range parts of the
window are clipped. -/
def windowWrite (env : List ℚ) (i w : ℕ) (v : ℚ) : List ℚ :=
  tabulate env.length
    (fun j => if i ≤ j ∧ j < i + w then max (env.getD i 0) v else env.getD j 0)

/-- The window `window_size = int(0.05 * sr)` at the engine's fixed `sr = 44100`
(`_apply_sidechain` is only ever called at the default sample rate). -/
def sidechainWin : ℕ := (pyInt ((1/20 : ℚ) * 44100)).toNat

/-- The vocal RMS envelope of `_apply_sidechain` (audio_processor.py:272-277),
tracked SQUARED: the code stores `rms = sqrt(mean(slice**2))` and only ever
uses the envelope through `max` (monotone) and the comparison `> 0.01`, so
storing `mean(slice**2)` and comparing against `0.01**2` is an exact
embedding that avoids the irrational square root. -/
def envelopeSq (vocals : List ℚ) : List ℚ :=
  (List.range' 0
      ((vocals.length - sidechainWin + sidechainWin / 2 - 1) / (sidechainWin / 2))
      (sidechainWin / 2)).foldl
    (fun env i => windowWrite env i sidechainWin (meanSq ((vocals.drop i).take sidechainWin)))
    (List.replicate vocals.length 0)

/-- The test `active = vocal_envelope > 0.01` (audio_processor.py:281), in squared form. -/
def activeOf (vocals : List ℚ) (j : ℕ) : Bool :=
  decide ((envelopeSq vocals).getD j 0 > 1/10000)

/-- The per-sample ducking gain (audio_processor.py:283-289):
`gain[0] = target[0]`, `gain[i] = gain[i-1] * rate + target * (1 - rate)`
with `target = 0.4` and `rate = 0.95` while active, `target = 1.0` and
`rate = 0.99` while inactive. -/
def duckingCurve (active : ℕ → Bool) : ℕ → ℚ
  | 0 => if active 0 then 2/5 else 1
  | i + 1 =>
    let rate : ℚ := if active (i + 1) then 19/20 else 99/100
    let target : ℚ := if active (i + 1) then 2/5 else 1
    duckingCurve active i * rate + target * (1 - rate)

/-- Embedding of `_apply_sidechain` (audio_processor.py:270-291).  The gain
loop reads `active[i]` for every `i < len(music)`; when the music buffer is
longer than the vocal buffer this is an out-of-range numpy read
(IndexError), modelled as `none`. -/
def applySidechain (music vocals : List ℚ) : Option (List ℚ) :=
  if music.length ≤ vocals.length then
    some (tabulate music.length
      (fun i => music.getD i 0 * duckingCurve (activeOf vocals) i))
  else none

/-- The running-max counterexample input: one loud 50 ms window followed by
more than two seconds of digital silence. -/
def cexVocals : List ℚ := List.replicate 2205 1 ++ List.replicate 100000 0

/-- Boolean success test for `Except Unit`-valued embeddings. -/
def exceptOk {α : Type} : Except Unit α → Bool
  | .ok _ => true
  | .error _ => false

/-- numpy slice assignment `dst[s:e] = src` (array-valued right-hand side):
the slice bounds are clipped to the array, and the assignment broadcasts
only when the source length equals the slice length (or is 1); any other
mismatch raises a ValueError, modelled as `error`. -/
def npSetSlice (dst : List ℚ) (s e : ℕ) (src : List ℚ) : Except Unit (List ℚ) :=
  if src.length = min e dst.length - min s dst.length then
    Except.ok (tabulate dst.length (fun j =>
      if min s dst.length ≤ j ∧ j < min e dst.length
      then src.getD (j - min s dst.length) 0 else dst.getD j 0))
  else if src.length = 1 then
    Except.ok (tabulate dst.length (fun j =>
      if min s dst.length ≤ j ∧ j < min e dst.length
      then src.getD 0 0 else dst.getD j 0))
  else Except.error ()

/-- numpy slice assignment of a scalar, `dst[s:e] = v` (never fails). -/
def fillRange (dst : List ℚ) (s e : ℕ) (v : ℚ) : List ℚ :=
  tabulate dst.length (fun j => if s ≤ j ∧ j < e then v else dst.getD j 0)

/-- The additive-harmonic signal value of `_generate_instrument`
(audio_processor.py:122-142) at time `x`; `osc y` stands for `sin(2*pi*y)`. -/
def instrumentSignal (osc : ℚ → ℚ) (freq : ℚ) (timbre : String) (x : ℚ) : ℚ :=
  if timbre = "synth" then
    1 * osc (freq * x) + (1/2) * osc (freq * 2 * x)
      + (1/4) * osc (freq * 3 * x) + (1/8) * osc (freq * 4 * x)
  else if timbre = "bass" then
    1 * osc (freq * x) + (3/10) * osc (freq * 2 * x) + (1/10) * osc (freq * 4 * x)
  else
    (4/5) * osc (freq * x) + (2/5) * osc (freq * 2 * x) + (3/10) * osc (freq * 3 * x)
      + (1/5) * osc (freq * 5 * x) + (1/10) * osc (freq * 7 * x)

/-- The ADSR envelope construction of `_generate_instrument`
(audio_processor.py:144-160) on a buffer of `n` ones: attack ramp
`env[:a] = linspace(0,1,a)` (unguarded against `a > n`), decay ramp
(guarded by `d > 0 and a + d < n`), sustain fill (guarded by
`sustain_start < sustain_end`), release ramp `env[-r:] = linspace(sus,0,r)`
(unguarded against `r > n`). -/
def adsrEnvelope (n a d r : ℕ) (sus : ℚ) : Except Unit (List ℚ) :=
  (if 0 < a then npSetSlice (List.replicate n 1) 0 a (linspace 0 1 a)
   else Except.ok (List.replicate n 1)).bind (fun envA =>
  (if 0 < d ∧ a + d < n then npSetSlice envA a (a + d) (linspace 1 sus d)
   else Except.ok envA).bind (fun envD =>
  (if 0 < r then npSetSlice (if a + d < n - r then fillRange envD (a + d) (n - r) sus
      else envD) (n - r) n (linspace sus 0 r)
   else Except.ok (if a + d < n - r then fillRange envD (a + d) (n - r) sus else envD))))

/-- Sample count `num_samples = int(sr * duration)`. -/
def nSamples (sr : ℕ) (dur : ℚ) : ℤ := pyInt (sr * dur)

/-- Embedding of `_generate_instrument` (audio_processor.py:116-162):
additive harmonic tone (per-timbre weights) times the ADSR envelope, with
`attack = int(sr*0.02)`, `decay = int(sr*0.05)`, `release = int(sr*0.1)`,
sustain level 0.7.  A negative sample count makes `np.linspace` raise. -/
def generateInstrument (osc : ℚ → ℚ) (freq dur : ℚ) (sr : ℕ)
    (timbre : String) : Except Unit (List ℚ) :=
  if nSamples sr dur < 0 then Except.error () else
  (adsrEnvelope (nSamples sr dur).toNat (pyInt (sr * (1/50))).toNat
      (pyInt (sr * (1/20))).toNat (pyInt (sr * (1/10))).toNat (7/10)).bind
  (fun env => Except.ok (List.zipWith (· * ·)
      ((linspace 0 dur (nSamples sr dur).toNat).map (instrumentSignal osc freq timbre))
      env))

/-- Window size `segment_len = int(0.3 * sr)` in `_apply_singing_timing`. -/
def segLen (sr : ℕ) : ℕ := (pyInt ((3/10 : ℚ) * sr)).toNat

/-- The `~0.3 s` windows of `_apply_singing_timing`
(audio_processor.py:45-48): `y[i:i+segment_len]` for
`i = 0, segment_len, 2*segment_len, …` (the last window may be shorter). -/
def segmentsOf (y : List ℚ) (k : ℕ) : List (List ℚ) :=
  (List.range ((y.length + k - 1) / k)).map (fun i => (y.drop (i * k)).take k)

/-- The per-segment loop of `_apply_singing_timing`
(audio_processor.py:51-59): windows shorter than 1000 samples pass through;
every other window is time-stretched by the next draw from the (global)
random stream.  `ts rate seg` is the `librosa.effects.time_stretch` oracle,
`draws c` is the `c`-th value produced by `random.uniform(0.75, 1.3)`. -/
def processSegs (ts : ℚ → List ℚ → List ℚ) (draws : ℕ → ℚ) :
    List (List ℚ) → ℕ → List (List ℚ)
  | [], _ => []
  | s :: rest, c =>
    if s.length < 1000 then s :: processSegs ts draws rest c
    else ts (draws c) s :: processSegs ts draws rest (c + 1)

/-- How many stretch draws `_apply_singing_timing` consumes on input `segs`. -/
def longCount : List (List ℚ) → ℕ
  | [] => 0
  | s :: rest => (if s.length < 1000 then 0 else 1) + longCount rest

/-- Embedding of `_apply_singing_timing` (audio_processor.py:37-61).
`none` models the two raising paths: `range` with step 0 (`sr < 4`), and
`np.concatenate([])` on a zero-length input (ValueError: need at least one
array to concatenate). -/
def applySingingTiming (ts : ℚ → List ℚ → List ℚ) (draws : ℕ → ℚ)
    (y : List ℚ) (sr : ℕ) : Option (List ℚ) :=
  if segLen sr = 0 then none
  else if y.isEmpty then none
  else some ((processSegs ts draws (segmentsOf y (segLen sr)) 0).flatten)

/-- Peak level `np.max(np.abs(xs))` over a possibly-empty buffer (0 for empty input,
used only behind a positivity guard in the code). -/
def peakAbs (xs : List ℚ) : ℚ := xs.foldr (fun x m => max |x| m) 0

/-- Normalization `if peak > 0: mixed = mixed / peak * 0.95` (audio_processor.py:340-342). -/
def normalize95 (xs : List ℚ) : List ℚ :=
  if 0 < peakAbs xs then xs.map (fun x => x / peakAbs xs * (19/20)) else xs

/-- Hard clip `np.clip(mixed, -1.0, 1.0)` (audio_processor.py:343). -/
def clip1 (xs : List ℚ) : List ℚ := xs.map (fun x => max (-1) (min 1 x))

/-- Quantization `np.int16(mixed * 32767)` (audio_processor.py:344): scale to 16-bit full
scale and truncate toward zero (C float-to-int cast). -/
def quantize16 (xs : List ℚ) : List ℤ := xs.map (fun x => pyInt (x * 32767))

/-- The normalize / clip / quantize tail of `mix_and_master`
(audio_processor.py:339-344). -/
def finalizeMaster (xs : List ℚ) : List ℤ := quantize16 (clip1 (normalize95 xs))

/-- Zero padding `np.pad(xs, (0, L - len(xs)))` as used to match buffer lengths
(audio_processor.py:313-316); identity when `xs` is already long enough. -/
def padTo (xs : List ℚ) (L : ℕ) : List ℚ := xs ++ List.replicate (L - xs.length) 0

/-- Embedding of `mix_and_master` (audio_processor.py:294-347).  `vocalFile`
is the loaded vocal (already float mono; `none` when the file does not
exist, in which case the code substitutes `np.zeros_like(background_music)`).
`eqB` is the highpass-120/lowpass-12000 pedalboard oracle, `mastB` the
two-compressor + gain mastering-chain oracle (both length-preserving in all
theorems).  The mix is `vocals * 1.0 + ducked * 0.35`. -/
def mixAndMaster (eqB mastB : List ℚ → List ℚ) (vocalFile : Option (List ℚ))
    (bg : List ℚ) : Option (List ℤ) :=
  (applySidechain
      (padTo bg (vocalFile.getD (List.replicate bg.length 0)).length)
      (padTo (vocalFile.getD (List.replicate bg.length 0)) bg.length)).bind
    (fun ducked => some (finalizeMaster (mastB
      (List.zipWith (fun v m => v * 1 + m * (7/20))
        (padTo (vocalFile.getD (List.replicate bg.length 0)) bg.length)
        (eqB ducked)))))

/-- The vibrato modulator of `apply_vocal_effects` (audio_processor.py:86-89)
at sample `j`: `0.3 * sin(2*pi*5.5*t_j)` with `t_j = j / sr`;
`osc x` stands for `sin(2*pi*x)`. -/
def vibratoAt (osc : ℚ → ℚ) (j : ℕ) : ℚ := (3/10) * osc ((11/2) * j / 44100)

/-- The vibrato stage of `apply_vocal_effects` (audio_processor.py:86-92):
`phase_mod = cumsum(vibrato / sr) * 2*pi*100` and the output is
`y * (1 + 0.02 * sin(phase_mod))`; with `osc x = sin(2*pi*x)` the phase
argument becomes `100 * cumsum_j / sr`. -/
def vibrato (osc : ℚ → ℚ) (y : List ℚ) : List ℚ :=
  tabulate y.length (fun j =>
    y.getD j 0 * (1 + (1/50) * osc (100 * ((List.range (j+1)).map (vibratoAt osc)).sum / 44100)))

/-- Normalization `y / (np.max(np.abs(y)) + 0.01)` (audio_processor.py:106); `np.max` of a
zero-length array raises, modelled as `error`. -/
def pyNormalize (y : List ℚ) : Except Unit (List ℚ) :=
  if y.isEmpty then Except.error ()
  else Except.ok (y.map (fun x => x / (peakAbs y + 1/100)))

def optToExcept : Option (List ℚ) → Except Unit (List ℚ)
  | some y => Except.ok y
  | none => Except.error ()

/-- The staged body of the `try` block of `apply_vocal_effects`
(audio_processor.py:69-109): load, singing timing, pitch shift by the
computed semitone amount, vibrato, pedalboard chain, normalization, write.
`load`, `ps` (librosa pitch shift) and `board` (pedalboard) are fallible
oracles; `writeOk` models whether `sf.write` succeeds. -/
def vocalPipeline (load : String → Except Unit (List ℚ))
    (ps : ℚ → List ℚ → Except Unit (List ℚ))
    (board : List ℚ → Except Unit (List ℚ))
    (osc lg : ℚ → ℚ) (ts : ℚ → List ℚ → List ℚ) (draws : ℕ → ℚ)
    (writeOk : Bool) (path mood : String) : Except Unit (List ℚ) :=
  (load path).bind (fun y =>
  (optToExcept (applySingingTiming ts draws y 44100)).bind (fun y1 =>
  (ps (semitonesShift lg mood) y1).bind (fun y2 =>
  (board (vibrato osc y2)).bind (fun y3 =>
  (pyNormalize y3).bind (fun y4 =>
  if writeOk then Except.ok y4 else Except.error ())))))

/-- Embedding of `apply_vocal_effects` (audio_processor.py:64-113): the whole
staged pipeline runs inside `try`; on any exception the function prints and
returns `False`, leaving the file system untouched; only on total success is
the result written back to `path` (and `True` returned). -/
def applyVocalEffects (load : String → Except Unit (List ℚ))
    (ps : ℚ → List ℚ → Except Unit (List ℚ))
    (board : List ℚ → Except Unit (List ℚ))
    (osc lg : ℚ → ℚ) (ts : ℚ → List ℚ → List ℚ) (draws : ℕ → ℚ)
    (writeOk : Bool) (fs : String → List ℚ) (path mood : String) :
    Bool × (String → List ℚ) :=
  match vocalPipeline load ps board osc lg ts draws writeOk path mood with
  | Except.error _ => (false, fs)
  | Except.ok y => (true, fun p => if p = path then y else fs p)

/-- Overlay `buf[start:end] += seg[:end-start] * gain` with
`end = min(start + len(seg), num_samples)` (the overlay pattern of
`generate_background_music`, audio_processor.py:181-184 etc.). -/
def overlayAdd (buf : List ℚ) (start : ℕ) (seg : List ℚ) (gain : ℚ) : List ℚ :=
  tabulate buf.length (fun j =>
    if start ≤ j ∧ j < min (start + seg.length) buf.length
    then buf.getD j 0 + seg.getD (j - start) 0 * gain
    else buf.getD j 0)

/-- The melody loop (audio_processor.py:175-184): iterate over the repeated
scale with index, `break` once `i * 2.0 * sr ≥ num_samples`, else lay a 2 s
"synth" note at `int(i * 2.0 * sr)` with gain 0.08. -/
def melodyLoop (osc : ℚ → ℚ) (n : ℕ) :
    List (ℕ × ℚ) → List ℚ → Except Unit (List ℚ)
  | [], buf => Except.ok buf
  | (i, f) :: rest, buf =>
    if n ≤ i * 2 * 44100 then Except.ok buf
    else (generateInstrument osc f 2 44100 "synth").bind (fun note =>
      melodyLoop osc n rest (overlayAdd buf (i * 2 * 44100) note (2/25)))

/-- The chord-pad loop (audio_processor.py:187-201): for
`i < ceil(D / 4)`, `break` once `i * 4.0 * sr ≥ num_samples`, else lay
`(pad(root) + pad(third)) * 0.5` (4 s "pad" tones at scale degrees
`i % 5` and `(i+2) % 5`) at `int(i * 4.0 * sr)` with gain 0.05. -/
def padLoop (osc : ℚ → ℚ) (freqs : List ℚ) (n : ℕ) :
    ℕ → ℕ → List ℚ → Except Unit (List ℚ)
  | _, 0, buf => Except.ok buf
  | i, c + 1, buf =>
    if n ≤ i * 4 * 44100 then Except.ok buf
    else (generateInstrument osc (freqs.getD (i % freqs.length) 0) 4 44100 "pad").bind
      (fun root => (generateInstrument osc (freqs.getD ((i + 2) % freqs.length) 0) 4 44100 "pad").bind
      (fun third => padLoop osc freqs n (i + 1) c
        (overlayAdd buf (i * 4 * 44100)
          ((List.zipWith (· + ·) root third).map (fun x => x * (1/2))) (1/20))))

/-- The bass loop (audio_processor.py:204-213): pedal tone at
`base_freq * 0.5`, note length `beat_duration * 2`, gain 0.12. -/
def bassLoop (osc : ℚ → ℚ) (base : ℚ) (bpm n : ℕ) :
    ℕ → ℕ → List ℚ → Except Unit (List ℚ)
  | _, 0, buf => Except.ok buf
  | i, c + 1, buf =>
    if (n:ℚ) ≤ (i:ℚ) * (60 / (bpm:ℚ) * 2) * 44100 then Except.ok buf
    else (generateInstrument osc (base * (1/2)) (60 / (bpm:ℚ) * 2) 44100 "bass").bind
      (fun note => bassLoop osc base bpm n (i + 1) c
        (overlayAdd buf (pyInt ((i:ℚ) * (60 / (bpm:ℚ) * 2) * 44100)).toNat note (3/25)))

/-- One kick transient (audio_processor.py:227-231), `m` samples long:
`0.15 * exp(-15 kt) * sin(2π (60 + 40 exp(-20 kt)) kt) + 0.02 * randn`
over `kt = linspace(0, 0.15, m)`; `osc x = sin(2πx)`, `expO = exp`,
`noise i j` the `j`-th `randn` draw of beat `i`. -/
def kickSeg (osc expO : ℚ → ℚ) (noise : ℕ → ℕ → ℚ) (i m : ℕ) : List ℚ :=
  (List.range m).map (fun j =>
    (3/20) * expO (-15 * ((linspace 0 (3/20) m).getD j 0)) *
      osc ((60 + 40 * expO (-20 * ((linspace 0 (3/20) m).getD j 0))) *
        ((linspace 0 (3/20) m).getD j 0))
    + (1/50) * noise i j)

/-- One snare transient (audio_processor.py:234-240):
`0.1 * exp(-20 st) * sin(2π·200·st) + 0.08 * exp(-15 st) * randn` over
`st = linspace(0, 0.12, m)`. -/
def snareSeg (osc expO : ℚ → ℚ) (noise : ℕ → ℕ → ℚ) (i m : ℕ) : List ℚ :=
  (List.range m).map (fun j =>
    (1/10) * expO (-20 * ((linspace 0 (3/25) m).getD j 0)) *
      osc (200 * ((linspace 0 (3/25) m).getD j 0))
    + (2/25) * expO (-15 * ((linspace 0 (3/25) m).getD j 0)) * noise i j)

/-- One hi-hat burst (audio_processor.py:242-249):
`0.03 * exp(-40 hht) * randn` over `hht = linspace(0, 0.05, m)`. -/
def hihatSeg (expO : ℚ → ℚ) (noise : ℕ → ℕ → ℚ) (i m : ℕ) : List ℚ :=
  (List.range m).map (fun j =>
    (3/100) * expO (-40 * ((linspace 0 (1/20) m).getD j 0)) * noise i j)

/-- The kick loop: on every beat `i`, if `bs = int(bt*sr) < num_samples`,
overlay a kick of `min(bs + int(0.15*sr), n) - bs` samples at `bs`. -/
def kickLoop (osc expO : ℚ → ℚ) (noise : ℕ → ℕ → ℚ) (bpm n : ℕ) :
    ℕ → ℕ → List ℚ → List ℚ
  | _, 0, buf => buf
  | i, c + 1, buf =>
    kickLoop osc expO noise bpm n (i + 1) c
      (if (pyInt ((i:ℚ) * (60 / (bpm:ℚ)) * 44100)).toNat < n then
        overlayAdd buf (pyInt ((i:ℚ) * (60 / (bpm:ℚ)) * 44100)).toNat
          (kickSeg osc expO noise i
            (min ((pyInt ((i:ℚ) * (60 / (bpm:ℚ)) * 44100)).toNat
                + (pyInt ((3/20:ℚ) * 44100)).toNat) n
              - (pyInt ((i:ℚ) * (60 / (bpm:ℚ)) * 44100)).toNat)) 1
       else buf)

/-- The snare loop: only on odd beats (`i % 2 == 1`). -/
def snareLoop (osc expO : ℚ → ℚ) (noise : ℕ → ℕ → ℚ) (bpm n : ℕ) :
    ℕ → ℕ → List ℚ → List ℚ
  | _, 0, buf => buf
  | i, c + 1, buf =>
    snareLoop osc expO noise bpm n (i + 1) c
      (if i % 2 = 1 ∧ (pyInt ((i:ℚ) * (60 / (bpm:ℚ)) * 44100)).toNat < n then
        overlayAdd buf (pyInt ((i:ℚ) * (60 / (bpm:ℚ)) * 44100)).toNat
          (snareSeg osc expO noise i
            (min ((pyInt ((i:ℚ) * (60 / (bpm:ℚ)) * 44100)).toNat
                + (pyInt ((3/25:ℚ) * 44100)).toNat) n
              - (pyInt ((i:ℚ) * (60 / (bpm:ℚ)) * 44100)).toNat)) 1
       else buf)

/-- The hi-hat loop: twice per beat, at `bt + j * beat/2` for `j = 0, 1`. -/
def hihatLoop (expO : ℚ → ℚ) (noise : ℕ → ℕ → ℚ) (bpm n : ℕ) :
    ℕ → ℕ → List ℚ → List ℚ
  | _, 0, buf => buf
  | i, c + 1, buf =>
    hihatLoop expO noise bpm n (i + 1) c
      ((fun buf1 =>
        if (pyInt (((i:ℚ) * (60 / (bpm:ℚ)) + 1 * (60 / (bpm:ℚ)) / 2) * 44100)).toNat < n then
          overlayAdd buf1 (pyInt (((i:ℚ) * (60 / (bpm:ℚ)) + 1 * (60 / (bpm:ℚ)) / 2) * 44100)).toNat
            (hihatSeg expO noise (2 * i + 1)
              (min ((pyInt (((i:ℚ) * (60 / (bpm:ℚ)) + 1 * (60 / (bpm:ℚ)) / 2) * 44100)).toNat
                  + (pyInt ((1/20:ℚ) * 44100)).toNat) n
                - (pyInt (((i:ℚ) * (60 / (bpm:ℚ)) + 1 * (60 / (bpm:ℚ)) / 2) * 44100)).toNat)) 1
        else buf1)
       (if (pyInt (((i:ℚ) * (60 / (bpm:ℚ)) + 0 * (60 / (bpm:ℚ)) / 2) * 44100)).toNat < n then
          overlayAdd buf (pyInt (((i:ℚ) * (60 / (bpm:ℚ)) + 0 * (60 / (bpm:ℚ)) / 2) * 44100)).toNat
            (hihatSeg expO noise (2 * i)
              (min ((pyInt (((i:ℚ) * (60 / (bpm:ℚ)) + 0 * (60 / (bpm:ℚ)) / 2) * 44100)).toNat
                  + (pyInt ((1/20:ℚ) * 44100)).toNat) n
                - (pyInt (((i:ℚ) * (60 / (bpm:ℚ)) + 0 * (60 / (bpm:ℚ)) / 2) * 44100)).toNat)) 1
        else buf))

/-- Fades with `fade_samples = int(sr * 1.5)`; linear fade-in/out applied only when the
buffer is strictly longer than twice the fade window
(audio_processor.py:262-265). -/
def applyFades (xs : List ℚ) : List ℚ :=
  if 2 * (pyInt ((3/2:ℚ) * 44100)).toNat < xs.length then
    tabulate xs.length (fun j =>
      if j < (pyInt ((3/2:ℚ) * 44100)).toNat then
        xs.getD j 0 * ((linspace 0 1 (pyInt ((3/2:ℚ) * 44100)).toNat).getD j 0)
      else if xs.length - (pyInt ((3/2:ℚ) * 44100)).toNat ≤ j then
        xs.getD j 0 * ((linspace 1 0 (pyInt ((3/2:ℚ) * 44100)).toNat).getD
          (j - (xs.length - (pyInt ((3/2:ℚ) * 44100)).toNat)) 0)
      else xs.getD j 0)
  else xs

/-- Embedding of `generate_background_music` (audio_processor.py:165-267):
melody, chord pads, bass and the three percussion tracks are laid over
silent buffers of `num_samples = int(sr * duration_s)` samples, summed,
passed through the bus pedalboard (`board` oracle, length-preserving in
the theorems), then faded.  A negative sample count makes `np.zeros`
raise.  `sr` is the module constant 44100. -/
def generateBackgroundMusic (board : List ℚ → List ℚ) (osc expO : ℚ → ℚ)
    (noiseK noiseS noiseH : ℕ → ℕ → ℚ) (D : ℚ) (bpm : ℕ) (mood : String) :
    Except Unit (List ℚ) :=
  if nSamples 44100 D < 0 then Except.error () else
  (melodyLoop osc (nSamples 44100 D).toNat
      ((List.replicate (natCeil (D / (((get_melody_freqs_for_mood mood).2.length : ℚ) * 2)))
        (get_melody_freqs_for_mood mood).2).flatten.enum)
      (List.replicate (nSamples 44100 D).toNat 0)).bind (fun melody =>
  (padLoop osc (get_melody_freqs_for_mood mood).2 (nSamples 44100 D).toNat 0
      (natCeil (D / 4))
      (List.replicate (nSamples 44100 D).toNat 0)).bind (fun pad =>
  (bassLoop osc (get_melody_freqs_for_mood mood).1 bpm (nSamples 44100 D).toNat 0
      (natCeil (D / (60 / (bpm:ℚ) * 2)))
      (List.replicate (nSamples 44100 D).toNat 0)).bind (fun bass =>
  Except.ok (applyFades (board
    (List.zipWith (· + ·) (List.zipWith (· + ·) (List.zipWith (· + ·)
      (List.zipWith (· + ·) (List.zipWith (· + ·) melody pad) bass)
      (kickLoop osc expO noiseK bpm (nSamples 44100 D).toNat 0
        (natCeil (D / (60 / (bpm:ℚ)))) (List.replicate (nSamples 44100 D).toNat 0)))
      (snareLoop osc expO noiseS bpm (nSamples 44100 D).toNat 0
        (natCeil (D / (60 / (bpm:ℚ)))) (List.replicate (nSamples 44100 D).toNat 0)))
      (hihatLoop expO noiseH bpm (nSamples 44100 D).toNat 0
        (natCeil (D / (60 / (bpm:ℚ)))) (List.replicate (nSamples 44100 D).toNat 0))))))))

@[simp] theorem length_tabulate (L : ℕ) (f : ℕ → ℚ) : (tabulate L f).length = L := by
  simp [tabulate]

theorem getD_tabulate_lt (L : ℕ) (f : ℕ → ℚ) {j : ℕ} (h : j < L) :
    (tabulate L f).getD j 0 = f j := by
  rw [List.getD_eq_getElem?_getD]
  simp [tabulate, List.getElem?_eq_getElem, h]

theorem sidechainWin_eq : sidechainWin = 2205 := by
  have h1 : ((1/20 : ℚ) * 44100) = ((2205 : ℕ) : ℚ) := by norm_num
  rw [sidechainWin, h1]
  norm_num [pyInt]
  rfl

theorem foldl_invariant {α β : Type} (P : β → Prop) (step : β → α → β)
    (l : List α) (b : β) (hb : P b)
    (hstep : ∀ b a, P b → a ∈ l → P (step b a)) : P (l.foldl step b) := by
  induction l generalizing b with
  | nil => exact hb
  | cons a t ih =>
    exact ih (step b a) (hstep b a hb (List.mem_cons_self a t))
      (fun b' a' h h' => hstep b' a' h (List.mem_cons_of_mem _ h'))

theorem tabulate_getD_self (l : List ℚ) :
    tabulate l.length (fun i => l.getD i 0) = l := by
  apply List.ext_getElem
  · simp
  · intro i h1 h2
    simp only [tabulate, List.getElem_map, List.getElem_range]
    exact List.getD_eq_getElem l 0 h2

@[simp] theorem windowWrite_length (env : List ℚ) (i w : ℕ) (v : ℚ) :
    (windowWrite env i w v).length = env.length := by
  simp [windowWrite]

theorem envelopeSq_length (vocals : List ℚ) :
    (envelopeSq vocals).length = vocals.length := by
  unfold envelopeSq
  apply foldl_invariant (fun env : List ℚ => env.length = vocals.length)
  · simp
  · intro env i h _
    simp [h]

theorem duckingCurve_bounds (active : ℕ → Bool) (i : ℕ) :
    2/5 ≤ duckingCurve active i ∧ duckingCurve active i ≤ 1 := by
  induction i with
  | zero =>
    unfold duckingCurve
    split <;> norm_num
  | succ n ih =>
    obtain ⟨h1, h2⟩ := ih
    cases hb : active (n + 1) <;>
      simp [duckingCurve, hb] <;> constructor <;> nlinarith

theorem duckingCurve_zero (active : ℕ → Bool) :
    duckingCurve active 0 = if active 0 then 2/5 else 1 := rfl

theorem duckingCurve_all_inactive (active : ℕ → Bool) (n : ℕ)
    (h : ∀ j, j ≤ n → active j = false) : duckingCurve active n = 1 := by
  induction n with
  | zero => simp [duckingCurve, h 0 le_rfl]
  | succ m ih =>
    have hm := ih (fun j hj => h j (hj.trans (Nat.le_succ m)))
    simp [duckingCurve, h (m + 1) le_rfl, hm]
    try norm_num

theorem duckingCurve_all_active (active : ℕ → Bool) (n : ℕ)
    (h : ∀ j, j ≤ n → active j = true) : duckingCurve active n = 2/5 := by
  induction n with
  | zero => simp [duckingCurve, h 0 le_rfl]
  | succ m ih =>
    have hm := ih (fun j hj => h j (hj.trans (Nat.le_succ m)))
    simp [duckingCurve, h (m + 1) le_rfl, hm]
    try norm_num

theorem duckingCurve_silence_decay (active : ℕ → Bool) (i n : ℕ)
    (h : ∀ k, 1 ≤ k → k ≤ n → active (i + k) = false) :
    1 - duckingCurve active (i + n) =
      (1 - duckingCurve active i) * (99/100) ^ n := by
  induction n with
  | zero => simp
  | succ m ih =>
    have hm := ih (fun k h1 h2 => h k h1 (h2.trans (Nat.le_succ m)))
    have hstep : active (i + m + 1) = false := by
      have := h (m + 1) (by omega) le_rfl
      rwa [← Nat.add_assoc] at this
    have hrw : i + (m + 1) = (i + m) + 1 := by omega
    rw [hrw]
    simp [duckingCurve, hstep]
    rw [pow_succ]
    nlinarith [hm]

theorem duckingCurve_active_decay (active : ℕ → Bool) (i n : ℕ)
    (h : ∀ k, 1 ≤ k → k ≤ n → active (i + k) = true) :
    duckingCurve active (i + n) - 2/5 =
      (duckingCurve active i - 2/5) * (19/20) ^ n := by
  induction n with
  | zero => simp
  | succ m ih =>
    have hm := ih (fun k h1 h2 => h k h1 (h2.trans (Nat.le_succ m)))
    have hstep : active (i + m + 1) = true := by
      have := h (m + 1) (by omega) le_rfl
      rwa [← Nat.add_assoc] at this
    have hrw : i + (m + 1) = (i + m) + 1 := by omega
    rw [hrw]
    simp [duckingCurve, hstep]
    rw [pow_succ]
    nlinarith [hm]

theorem envelopeSq_of_zero (vocals : List ℚ) (hv : ∀ x ∈ vocals, x = 0) :
    ∀ j, (envelopeSq vocals).getD j 0 = 0 := by
  unfold envelopeSq
  apply foldl_invariant (fun env : List ℚ => ∀ j', env.getD j' 0 = 0)
  · intro j'
    rcases Nat.lt_or_ge j' vocals.length with h | h
    · rw [List.getD_eq_getElem _ _ (by simpa using h)]
      simp
    · rw [List.getD_eq_default _ _ (by simpa using h)]
  · intro env i h _
    have hms : meanSq ((vocals.drop i).take sidechainWin) = 0 := by
      have hz : ∀ x ∈ (vocals.drop i).take sidechainWin, x = 0 := by
        intro x hx
        exact hv x (List.mem_of_mem_drop (List.mem_of_mem_take hx))
      unfold meanSq
      have hsum : (((vocals.drop i).take sidechainWin).map (fun x => x * x)).sum = 0 := by
        apply List.sum_eq_zero
        intro y hy
        obtain ⟨x, hx, hxy⟩ := List.mem_map.mp hy
        rw [← hxy, hz x hx, mul_zero]
      rw [hsum, zero_div]
    intro j'
    unfold windowWrite
    rw [hms, h i, max_self]
    rcases Nat.lt_or_ge j' env.length with hj | hj
    · rw [getD_tabulate_lt _ _ (by simpa using hj)]
      split
      · rfl
      · exact h j'
    · rw [List.getD_eq_default _ _ (by simpa using hj)]

theorem activeOf_zero (vocals : List ℚ) (hv : ∀ x ∈ vocals, x = 0) (j : ℕ) :
    activeOf vocals j = false := by
  have h := envelopeSq_of_zero vocals hv j
  simp only [activeOf, h, decide_eq_false_iff_not]
  norm_num

theorem getD_replicate_zero (L j : ℕ) : (List.replicate L (0:ℚ)).getD j 0 = 0 := by
  rcases Nat.lt_or_ge j L with h | h
  · rw [List.getD_eq_getElem _ _ (by simpa using h)]
    simp
  · rw [List.getD_eq_default _ _ (by simpa using h)]

theorem envelopeSq_of_short (vocals : List ℚ) (hlen : vocals.length ≤ 2205) :
    ∀ j, (envelopeSq vocals).getD j 0 = 0 := by
  intro j
  unfold envelopeSq
  rw [sidechainWin_eq]
  have hc : (vocals.length - 2205 + 2205 / 2 - 1) / (2205 / 2) = 0 := by omega
  rw [hc, show List.range' 0 0 (2205 / 2) = [] from rfl, List.foldl_nil]
  exact getD_replicate_zero vocals.length j

theorem activeOf_short (vocals : List ℚ) (hlen : vocals.length ≤ 2205) (j : ℕ) :
    activeOf vocals j = false := by
  have h := envelopeSq_of_short vocals hlen j
  simp only [activeOf, h, decide_eq_false_iff_not]
  norm_num

theorem applySidechain_gain_one (music vocals : List ℚ)
    (hlen : music.length ≤ vocals.length)
    (hact : ∀ j, activeOf vocals j = false) :
    applySidechain music vocals = some music := by
  unfold applySidechain
  rw [if_pos hlen]
  have hg : ∀ i, duckingCurve (activeOf vocals) i = 1 :=
    fun i => duckingCurve_all_inactive _ i (fun j _ => hact j)
  simp only [hg, mul_one]
  rw [tabulate_getD_self]

theorem getD_windowWrite_in (env : List ℚ) (i w : ℕ) (v : ℚ) (j : ℕ)
    (hj : j < env.length) (hin : i ≤ j ∧ j < i + w) :
    (windowWrite env i w v).getD j 0 = max (env.getD i 0) v := by
  unfold windowWrite
  rw [getD_tabulate_lt _ _ hj, if_pos hin]

theorem getD_windowWrite_notin (env : List ℚ) (i w : ℕ) (v : ℚ) (j : ℕ)
    (hout : ¬(i ≤ j ∧ j < i + w)) :
    (windowWrite env i w v).getD j 0 = env.getD j 0 := by
  rcases Nat.lt_or_ge j env.length with hj | hj
  · unfold windowWrite
    rw [getD_tabulate_lt _ _ hj, if_neg hout]
  · rw [List.getD_eq_default _ _ (by simpa using hj),
      List.getD_eq_default _ _ (by simpa using hj)]

theorem envelope_chain (vocals : List ℚ) (c : ℕ) :
    ∀ (s : ℕ) (env : List ℚ), env.length = vocals.length →
    (∀ j, j < s + 1103 → j < env.length → 1 ≤ env.getD j 0) →
    ∀ j, j < s + c * 1102 + 1103 → j < vocals.length →
      1 ≤ ((List.range' s c 1102).foldl
            (fun env i => windowWrite env i 2205 (meanSq ((vocals.drop i).take 2205)))
            env).getD j 0 := by
  induction c with
  | zero =>
    intro s env hlen hcov j hj hjL
    rw [show List.range' s 0 1102 = [] from rfl, List.foldl_nil]
    exact hcov j (by omega) (by omega)
  | succ c ih =>
    intro s env hlen hcov j hj hjL
    rw [List.range'_succ, List.foldl_cons]
    have hlen' : (windowWrite env s 2205 (meanSq ((vocals.drop s).take 2205))).length
        = vocals.length := by simpa using hlen
    have hcov' : ∀ j', j' < (s + 1102) + 1103 →
        j' < (windowWrite env s 2205 (meanSq ((vocals.drop s).take 2205))).length →
        1 ≤ (windowWrite env s 2205 (meanSq ((vocals.drop s).take 2205))).getD j' 0 := by
      intro j' hj' hj'L
      have hj'E : j' < env.length := by
        rw [hlen, ← hlen']
        exact hj'L
      rcases Nat.lt_or_ge j' s with hlt | hge
      · rw [getD_windowWrite_notin _ _ _ _ _ (by omega)]
        exact hcov j' (by omega) hj'E
      · have hsE : s < env.length := by omega
        rw [getD_windowWrite_in _ _ _ _ _ hj'E ⟨hge, by omega⟩]
        exact le_trans (hcov s (by omega) hsE) (le_max_left _ _)
    have := ih (s + 1102)
      (windowWrite env s 2205 (meanSq ((vocals.drop s).take 2205))) hlen' hcov'
      j (by omega) hjL
    exact this

theorem meanSq_replicate_one : meanSq (List.replicate 2205 (1:ℚ)) = 1 := by
  unfold meanSq
  rw [List.map_replicate, List.sum_replicate, List.length_replicate]
  norm_num

theorem cexVocals_length : cexVocals.length = 102205 := by
  rw [cexVocals, List.length_append, List.length_replicate, List.length_replicate]

theorem cex_active (j : ℕ) (hj : j < 101385) : activeOf cexVocals j = true := by
  have hms0 : meanSq ((cexVocals.drop 0).take 2205) = 1 := by
    have htake : (cexVocals.drop 0).take 2205 = List.replicate 2205 (1:ℚ) := by
      rw [cexVocals, List.drop_zero]
      exact List.take_left' (List.length_replicate 2205 1)
    rw [htake, meanSq_replicate_one]
  have hcount : (cexVocals.length - sidechainWin + sidechainWin / 2 - 1) / (sidechainWin / 2)
      = 91 := by
    rw [cexVocals_length, sidechainWin_eq]
  have hname : envelopeSq cexVocals =
      (List.range' 0 91 1102).foldl
        (fun env i => windowWrite env i 2205 (meanSq ((cexVocals.drop i).take 2205)))
        (List.replicate cexVocals.length 0) := by
    unfold envelopeSq
    rw [hcount, sidechainWin_eq]
  have hsplit : (List.range' 0 91 1102) = 0 :: List.range' 1102 90 1102 :=
    List.range'_succ 0 90 1102
  have henv1len : (windowWrite (List.replicate cexVocals.length 0) 0 2205
      (meanSq ((cexVocals.drop 0).take 2205))).length = cexVocals.length := by simp
  have hcov1 : ∀ j', j' < 1102 + 1103 →
      j' < (windowWrite (List.replicate cexVocals.length 0) 0 2205
        (meanSq ((cexVocals.drop 0).take 2205))).length →
      1 ≤ (windowWrite (List.replicate cexVocals.length 0) 0 2205
        (meanSq ((cexVocals.drop 0).take 2205))).getD j' 0 := by
    intro j' hj' hj'L
    have hj'E : j' < (List.replicate cexVocals.length (0:ℚ)).length := by
      simpa using (henv1len ▸ hj'L)
    rw [getD_windowWrite_in _ _ _ _ _ hj'E ⟨Nat.zero_le j', by omega⟩, hms0]
    exact le_max_right _ _
  have hchain := envelope_chain cexVocals 90 1102
    (windowWrite (List.replicate cexVocals.length 0) 0 2205
      (meanSq ((cexVocals.drop 0).take 2205)))
    henv1len hcov1 j (by omega) (by rw [cexVocals_length]; omega)
  have henv : 1 ≤ (envelopeSq cexVocals).getD j 0 := by
    rw [hname, hsplit, List.foldl_cons]
    exact hchain
  simp only [activeOf, decide_eq_true_eq]
  calc (1/10000 : ℚ) < 1 := by norm_num
    _ ≤ _ := henv

/-- C3 (amended): for arbitrary vocal input every ducking-curve value lies in
`[0.4, 1.0]`, the curve starts at the first target value, it decays
geometrically toward `1.0` during sustained INACTIVITY and toward `0.4`
during sustained ACTIVITY, and it is identically `1.0` for an all-zero vocal.
Vocal silence does not imply inactivity: the envelope is a running maximum
(each window stores `max(envelope[window_start], rms)` and the windows
overlap), so after one loud window all later covered samples stay active and
the curve converges to `0.4`, not `1.0`, during subsequent silence. -/
theorem ducking_curve_range_and_decay : ∀ vocals : List ℚ,
    (∀ i, 2/5 ≤ duckingCurve (activeOf vocals) i ∧ duckingCurve (activeOf vocals) i ≤ 1)
  ∧ duckingCurve (activeOf vocals) 0 = (if activeOf vocals 0 then 2/5 else 1)
  ∧ (∀ i n, (∀ k, 1 ≤ k → k ≤ n → activeOf vocals (i + k) = false) →
      1 - duckingCurve (activeOf vocals) (i + n) =
        (1 - duckingCurve (activeOf vocals) i) * (99/100) ^ n)
  ∧ (∀ i n, (∀ k, 1 ≤ k → k ≤ n → activeOf vocals (i + k) = true) →
      duckingCurve (activeOf vocals) (i + n) - 2/5 =
        (duckingCurve (activeOf vocals) i - 2/5) * (19/20) ^ n)
  ∧ ((∀ x ∈ vocals, x = 0) → ∀ i, duckingCurve (activeOf vocals) i = 1) := by
  intro vocals
  refine ⟨duckingCurve_bounds _, duckingCurve_zero _,
    duckingCurve_silence_decay _, duckingCurve_active_decay _, ?_⟩
  intro hz i
  exact duckingCurve_all_inactive _ i (fun j _ => activeOf_zero vocals hz j)

theorem ducking_curve_range_and_decay_witness :
    duckingCurve (activeOf []) 7 = 1 :=
  (ducking_curve_range_and_decay []).2.2.2.2
    (fun x hx => absurd hx (List.not_mem_nil x)) 7

/-- C3 counterexample: after one loud 50 ms window, a following silent
stretch of more than one second (samples 5900-50000 of `cexVocals` are all
zero, 44101 ≥ 44100 consecutive silent samples at 44.1 kHz) leaves the
ducking curve at exactly `0.4` — the ducking floor — rather than
converging to `1.0`, because the envelope is a running maximum. -/
theorem ducking_curve_silence_not_unity :
    (cexVocals.drop 5900).take 44101 = List.replicate 44101 0 ∧
    duckingCurve (activeOf cexVocals) 50000 = 2/5 := by
  constructor
  · rw [cexVocals]
    rw [show (5900:ℕ) = (List.replicate 2205 (1:ℚ)).length + 3695 by
      rw [List.length_replicate]]
    rw [List.drop_append, List.drop_replicate, List.take_replicate]
    norm_num
  · exact duckingCurve_all_active _ _ (fun j hj => cex_active j (by omega))

/-- C10 (amended): when the vocal buffer is at least as long as the backing
track and is identically zero (or contains no complete 2205-sample RMS
window), the ducking gain is exactly `1.0` at every sample and
`_apply_sidechain` returns the backing track unchanged.  (When the vocal is
SHORTER than the backing track the code instead fails with an IndexError on
`active[i]`, see the counterexample.) -/
theorem sidechain_silence_identity (music vocals : List ℚ)
    (hlen : music.length ≤ vocals.length)
    (hz : (∀ x ∈ vocals, x = 0) ∨ vocals.length < 2205) :
    (∀ i, duckingCurve (activeOf vocals) i = 1) ∧
    applySidechain music vocals = some music := by
  have hact : ∀ j, activeOf vocals j = false := by
    rcases hz with hz | hz
    · exact activeOf_zero vocals hz
    · exact activeOf_short vocals (by omega)
  exact ⟨fun i => duckingCurve_all_inactive _ i (fun j _ => hact j),
    applySidechain_gain_one music vocals hlen hact⟩

theorem sidechain_silence_identity_witness :
    applySidechain [(1:ℚ)/2] [0, 0, 0] = some [1/2] ∧
    duckingCurve (activeOf [0, 0, 0]) 2 = 1 := by
  have h := sidechain_silence_identity [(1:ℚ)/2] [0, 0, 0]
    (by norm_num) (Or.inr (by norm_num))
  exact ⟨h.2, h.1 2⟩

/-- C10 counterexample: a zero-length (hence identically-zero, shorter than
one RMS window) vocal with a nonempty backing track makes `_apply_sidechain`
fail (the gain loop reads `active[0]` past the end of the vocal envelope —
an IndexError), instead of returning the backing track unchanged. -/
theorem sidechain_short_vocal_index_error :
    applySidechain [(1:ℚ)] [] = none := rfl

theorem resolver_degrees_length (mood : String) :
    (get_melody_freqs_for_mood mood).2.length = 5 := by
  unfold get_melody_freqs_for_mood
  dsimp only
  split
  · rfl
  · split
    · rfl
    · split
      · rfl
      · split <;> rfl

theorem pyInt_natCast (m : ℕ) : pyInt (m : ℚ) = m := by
  unfold pyInt
  rw [Rat.num_natCast, Rat.den_natCast]
  exact Int.tdiv_one m

@[simp] theorem length_linspace (a b : ℚ) (n : ℕ) : (linspace a b n).length = n := by
  unfold linspace
  rw [List.length_map, List.length_range]

@[simp] theorem length_fillRange (dst : List ℚ) (s e : ℕ) (v : ℚ) :
    (fillRange dst s e v).length = dst.length := by
  simp [fillRange]

theorem npSetSlice_ok (dst : List ℚ) (s e : ℕ) (src : List ℚ)
    (h : src.length = min e dst.length - min s dst.length) :
    npSetSlice dst s e src = Except.ok (tabulate dst.length (fun j =>
      if min s dst.length ≤ j ∧ j < min e dst.length
      then src.getD (j - min s dst.length) 0 else dst.getD j 0)) := by
  unfold npSetSlice
  rw [if_pos h]

theorem npSetSlice_err (dst : List ℚ) (s e : ℕ) (src : List ℚ)
    (h1 : src.length ≠ min e dst.length - min s dst.length)
    (h2 : src.length ≠ 1) :
    npSetSlice dst s e src = Except.error () := by
  unfold npSetSlice
  rw [if_neg h1, if_neg h2]

theorem npSetSlice_ok_length (dst : List ℚ) (s e : ℕ) (src out : List ℚ)
    (h : npSetSlice dst s e src = Except.ok out) : out.length = dst.length := by
  unfold npSetSlice at h
  split at h
  · injection h with h'
    rw [← h']
    simp
  · split at h
    · injection h with h'
      rw [← h']
      simp
    · exact absurd h (by simp)

theorem exBind_ok {α β : Type} (x : α) (f : α → Except Unit β) :
    (Except.ok x).bind f = f x := rfl

theorem exBind_err {α β : Type} (f : α → Except Unit β) :
    (Except.error () : Except Unit α).bind f = Except.error () := rfl

theorem adsrEnvelope_ok (n : ℕ) (h : 4410 ≤ n) :
    ∃ env, adsrEnvelope n 882 2205 4410 (7/10) = Except.ok env ∧ env.length = n := by
  unfold adsrEnvelope
  rw [if_pos (by norm_num : (0:ℕ) < 882)]
  rw [npSetSlice_ok _ _ _ _ (by simp; omega), exBind_ok]
  rw [if_pos (by constructor <;> omega : 0 < 2205 ∧ 882 + 2205 < n)]
  rw [npSetSlice_ok _ _ _ _ (by simp; omega), exBind_ok]
  rw [if_pos (by norm_num : (0:ℕ) < 4410)]
  rw [npSetSlice_ok _ _ _ _ (by split <;> simp <;> omega)]
  refine ⟨_, rfl, ?_⟩
  rw [length_tabulate]
  split <;> simp

theorem adsrEnvelope_err (n : ℕ) (h : n < 4410) :
    adsrEnvelope n 882 2205 4410 (7/10) = Except.error () := by
  unfold adsrEnvelope
  rw [if_pos (by norm_num : (0:ℕ) < 882)]
  rcases Nat.lt_or_ge n 882 with hn | hn
  · rw [npSetSlice_err _ _ _ _ (by simp; omega) (by simp)]
    rfl
  · rw [npSetSlice_ok _ _ _ _ (by simp; omega), exBind_ok]
    by_cases hd : 0 < 2205 ∧ 882 + 2205 < n
    · rw [if_pos hd]
      rw [npSetSlice_ok _ _ _ _ (by simp; omega), exBind_ok]
      rw [if_pos (by norm_num : (0:ℕ) < 4410)]
      rw [npSetSlice_err _ _ _ _ (by split <;> simp <;> omega) (by norm_num)]
    · rw [if_neg hd, exBind_ok]
      rw [if_pos (by norm_num : (0:ℕ) < 4410)]
      rw [npSetSlice_err _ _ _ _ (by split <;> simp <;> omega) (by norm_num)]

theorem generateInstrument_spec (osc : ℚ → ℚ) (freq dur : ℚ) (timbre : String) :
    (4410 ≤ (nSamples 44100 dur).toNat →
      ∃ out, generateInstrument osc freq dur 44100 timbre = Except.ok out ∧
        out.length = (nSamples 44100 dur).toNat)
  ∧ ((nSamples 44100 dur).toNat < 4410 →
      generateInstrument osc freq dur 44100 timbre = Except.error ()) := by
  have hA : (pyInt (((44100:ℕ):ℚ) * (1/50))).toNat = 882 := by
    rw [show ((44100:ℕ):ℚ) * (1/50) = ((882:ℕ):ℚ) by push_cast; norm_num,
      pyInt_natCast]
    rfl
  have hD : (pyInt (((44100:ℕ):ℚ) * (1/20))).toNat = 2205 := by
    rw [show ((44100:ℕ):ℚ) * (1/20) = ((2205:ℕ):ℚ) by push_cast; norm_num,
      pyInt_natCast]
    rfl
  have hR : (pyInt (((44100:ℕ):ℚ) * (1/10))).toNat = 4410 := by
    rw [show ((44100:ℕ):ℚ) * (1/10) = ((4410:ℕ):ℚ) by push_cast; norm_num,
      pyInt_natCast]
    rfl
  constructor
  · intro hn
    have hpos : ¬ nSamples 44100 dur < 0 := by
      intro hneg
      rw [Int.toNat_of_nonpos (le_of_lt hneg)] at hn
      omega
    unfold generateInstrument
    rw [if_neg hpos, hA, hD, hR]
    obtain ⟨env, henv, hlen⟩ := adsrEnvelope_ok (nSamples 44100 dur).toNat hn
    rw [henv, exBind_ok]
    refine ⟨_, rfl, ?_⟩
    rw [List.length_zipWith, List.length_map, length_linspace, hlen, min_self]
  · intro hn
    unfold generateInstrument
    by_cases hpos : nSamples 44100 dur < 0
    · rw [if_pos hpos]
    · rw [if_neg hpos, hA, hD, hR]
      rw [adsrEnvelope_err (nSamples 44100 dur).toNat hn]
      rfl

/-- C2 counterexample: at frequency 440 Hz, duration 0.01 s (441 samples,
shorter than the 20 ms attack), sample rate 44100 and the "synth" timbre,
`_generate_instrument` raises (the unguarded attack assignment
`envelope[:882] = np.linspace(0, 1, 882)` is a numpy broadcast ValueError
into a 441-sample buffer) instead of returning a tone. -/
theorem instrument_short_note_error :
    generateInstrument (fun _ => 0) 440 (1/100) 44100 "synth" = Except.error () := by
  have h : (nSamples 44100 (1/100)).toNat = 441 := by
    unfold nSamples
    rw [show ((44100:ℕ):ℚ) * (1/100) = ((441:ℕ):ℚ) by push_cast; norm_num,
      pyInt_natCast]
    rfl
  exact (generateInstrument_spec (fun _ => 0) 440 (1/100) "synth").2 (by omega)

/-- C2 (amended): at the engine's sample rate 44100, `_generate_instrument`
returns a tone (of exactly `int(44100 * duration)` samples) iff the note is
at least as long as the 100 ms release window (`int(44100 * duration) ≥ 4410`
samples).  The decay ramp is skipped and the sustain region collapses when
they do not fit, as the spec says — but for shorter notes the UNGUARDED
attack and release slice assignments raise a numpy broadcast error instead
of clamping. -/
theorem instrument_short_note_behavior (osc : ℚ → ℚ) (freq dur : ℚ) (timbre : String) :
    (exceptOk (generateInstrument osc freq dur 44100 timbre) = true ↔
      4410 ≤ (nSamples 44100 dur).toNat)
  ∧ (4410 ≤ (nSamples 44100 dur).toNat →
      ∃ out, generateInstrument osc freq dur 44100 timbre = Except.ok out ∧
        out.length = (nSamples 44100 dur).toNat) := by
  obtain ⟨hok, herr⟩ := generateInstrument_spec osc freq dur timbre
  refine ⟨⟨?_, ?_⟩, hok⟩
  · intro hOk
    by_contra hlt
    rw [herr (by omega)] at hOk
    exact absurd hOk (by simp [exceptOk])
  · intro hn
    obtain ⟨out, ho, _⟩ := hok hn
    rw [ho]
    rfl

theorem instrument_short_note_behavior_witness :
    ∃ out, generateInstrument (fun _ => 0) 440 1 44100 "synth" = Except.ok out ∧
      out.length = (nSamples 44100 1).toNat := by
  have h : (nSamples 44100 1).toNat = 44100 := by
    unfold nSamples
    rw [mul_one, pyInt_natCast]
    rfl
  exact (instrument_short_note_behavior (fun _ => 0) 440 1 "synth").2 (by omega)

theorem segLen_44100 : segLen 44100 = 13230 := by
  unfold segLen
  rw [show (3/10 : ℚ) * ((44100:ℕ):ℚ) = ((13230:ℕ):ℚ) by push_cast; norm_num,
    pyInt_natCast]
  rfl

theorem processSegs_congr (ts : ℚ → List ℚ → List ℚ) (d1 d2 : ℕ → ℚ)
    (segs : List (List ℚ)) :
    ∀ c, (∀ j, j < longCount segs → d1 (c + j) = d2 (c + j)) →
    processSegs ts d1 segs c = processSegs ts d2 segs c := by
  induction segs with
  | nil => intro c _; rfl
  | cons s rest ih =>
    intro c h
    by_cases hs : s.length < 1000
    · have hlc : longCount (s :: rest) = longCount rest := by
        simp [longCount, hs]
      rw [processSegs, processSegs, if_pos hs, if_pos hs,
        ih c (fun j hj => h j (hlc ▸ hj))]
    · have hlc : longCount (s :: rest) = 1 + longCount rest := by
        simp [longCount, hs]
      have h0 : d1 c = d2 c := by
        have := h 0 (by omega)
        simpa using this
      rw [processSegs, processSegs, if_neg hs, if_neg hs, h0,
        ih (c + 1) (fun j hj => by
          have := h (j + 1) (by omega)
          rwa [show c + (j + 1) = c + 1 + j by omega] at this)]

/-- C6: the embedded singing-timing transform is a pure function of the
input waveform and the stream of stretch draws: whenever two draw streams
agree on the draws actually consumed (one per window of at least 1000
samples), the outputs are identical — reproducibility holds with respect to
the random stream.  In the Python code, however, that stream is the
process-global `random` module, not an injectable source passed in
explicitly (`_apply_singing_timing(y, sr)` has no random parameter). -/
theorem singing_timing_reproducible (ts : ℚ → List ℚ → List ℚ) (d1 d2 : ℕ → ℚ)
    (y : List ℚ) (sr : ℕ)
    (h : ∀ j, j < longCount (segmentsOf y (segLen sr)) → d1 j = d2 j) :
    applySingingTiming ts d1 y sr = applySingingTiming ts d2 y sr := by
  unfold applySingingTiming
  split
  · rfl
  · split
    · rfl
    · rw [processSegs_congr ts d1 d2 (segmentsOf y (segLen sr)) 0
        (fun j hj => by simpa using h j hj)]

theorem singing_timing_reproducible_witness :
    applySingingTiming (fun _ s => s) (fun _ => 0) [0] 44100 =
    applySingingTiming (fun _ s => s) (fun _ => 1) [0] 44100 := by
  apply singing_timing_reproducible
  intro j hj
  rw [segLen_44100] at hj
  have h0 : longCount (segmentsOf [0] 13230) = 0 := by decide
  omega

/-- C8 counterexample: on a zero-length vocal the timing transform raises
(`np.concatenate` of an empty list of processed segments is a ValueError)
instead of producing a zero-filled buffer. -/
theorem singing_timing_empty_error :
    applySingingTiming (fun _ s => s) (fun _ => 1) [] 44100 = none := by
  unfold applySingingTiming
  rw [if_neg (by rw [segLen_44100]; norm_num),
    if_pos (show ([] : List ℚ).isEmpty = true from rfl)]

@[simp] theorem padTo_length (xs : List ℚ) (L : ℕ) :
    (padTo xs L).length = max xs.length L := by
  simp [padTo]
  omega

theorem applySidechain_of_le (music vocals : List ℚ)
    (h : music.length ≤ vocals.length) :
    applySidechain music vocals = some (tabulate music.length
      (fun i => music.getD i 0 * duckingCurve (activeOf vocals) i)) := by
  unfold applySidechain
  rw [if_pos h]

theorem mixAndMaster_total (eqB mastB : List ℚ → List ℚ)
    (vocalFile : Option (List ℚ)) (bg : List ℚ) :
    ∃ out, mixAndMaster eqB mastB vocalFile bg = some out := by
  unfold mixAndMaster
  rw [applySidechain_of_le _ _ (by simp; omega)]
  exact ⟨_, rfl⟩

/-- C8 (amended): the timing transform succeeds on every NONEMPTY waveform
(but raises on a zero-length one, see the counterexample), and
`mix_and_master` substitutes a zero buffer of the backing track's length
when the vocal file is absent — absent-vocal behaviour is literally the
all-zero-vocal behaviour, and the mix always completes. -/
theorem empty_vocal_downstream :
    (∀ (ts : ℚ → List ℚ → List ℚ) (draws : ℕ → ℚ) (y : List ℚ), y ≠ [] →
      ∃ out, applySingingTiming ts draws y 44100 = some out)
  ∧ (∀ (eqB mastB : List ℚ → List ℚ) (bg : List ℚ),
      mixAndMaster eqB mastB none bg =
        mixAndMaster eqB mastB (some (List.replicate bg.length 0)) bg
      ∧ ∃ out, mixAndMaster eqB mastB none bg = some out) := by
  constructor
  · intro ts draws y hy
    unfold applySingingTiming
    rw [if_neg (by rw [segLen_44100]; norm_num),
      if_neg (by simpa using hy)]
    exact ⟨_, rfl⟩
  · intro eqB mastB bg
    exact ⟨rfl, mixAndMaster_total eqB mastB none bg⟩

theorem empty_vocal_downstream_witness :
    (∃ out, applySingingTiming (fun _ s => s) (fun _ => 1) [0] 44100 = some out) ∧
    (∃ out, mixAndMaster id id none [] = some out) := by
  exact ⟨empty_vocal_downstream.1 (fun _ s => s) (fun _ => 1) [0]
      (by simp),
    (empty_vocal_downstream.2 id id []).2⟩

theorem peakAbs_nil : peakAbs ([] : List ℚ) = 0 := rfl

theorem peakAbs_cons (x : ℚ) (t : List ℚ) :
    peakAbs (x :: t) = max |x| (peakAbs t) := rfl

theorem peakAbs_nonneg (xs : List ℚ) : 0 ≤ peakAbs xs := by
  induction xs with
  | nil => exact le_rfl
  | cons x t ih => exact le_trans ih (by rw [peakAbs_cons]; exact le_max_right _ _)

theorem peakAbs_map_mul (xs : List ℚ) (c : ℚ) (hc : 0 ≤ c) :
    peakAbs (xs.map (fun x => x * c)) = peakAbs xs * c := by
  induction xs with
  | nil => rw [List.map_nil, peakAbs_nil, zero_mul]
  | cons x t ih =>
    rw [List.map_cons, peakAbs_cons, peakAbs_cons, ih, abs_mul,
      abs_of_nonneg hc, ← max_mul_of_nonneg _ _ hc]

theorem normalize95_peak (xs : List ℚ) (h : 0 < peakAbs xs) :
    peakAbs (normalize95 xs) = 19/20 := by
  unfold normalize95
  rw [if_pos h]
  have hfun : (fun x => x / peakAbs xs * (19/20)) =
      (fun x : ℚ => x * ((19/20) / peakAbs xs)) := by
    funext x
    field_simp
    left
    ring
  rw [hfun, peakAbs_map_mul xs _ (by positivity)]
  field_simp
  ring

theorem clip1_bounds (xs : List ℚ) : ∀ y ∈ clip1 xs, -1 ≤ y ∧ y ≤ 1 := by
  intro y hy
  obtain ⟨x, _, rfl⟩ := List.mem_map.mp hy
  exact ⟨le_max_left _ _, max_le (by norm_num) (min_le_left _ _)⟩

theorem pyInt_eq_floor (q : ℚ) (h : 0 ≤ q) : pyInt q = ⌊q⌋ := by
  unfold pyInt
  rw [Int.tdiv_eq_ediv (Rat.num_nonneg.mpr h) (by positivity), Rat.floor_def]

theorem pyInt_neg (q : ℚ) : pyInt (-q) = -pyInt q := by
  unfold pyInt
  rw [Rat.num_neg_eq_neg_num, Rat.den_neg_eq_den, Int.neg_tdiv]

theorem pyInt_abs_le (q : ℚ) (M : ℕ) (h : |q| ≤ (M:ℚ)) : |pyInt q| ≤ (M:ℤ) := by
  rcases le_or_lt 0 q with hq | hq
  · rw [pyInt_eq_floor q hq, abs_of_nonneg (Int.floor_nonneg.mpr hq)]
    calc ⌊q⌋ ≤ ⌊(M:ℚ)⌋ := Int.floor_le_floor ((abs_of_nonneg hq) ▸ h)
      _ = M := Int.floor_natCast M
  · have hq' : 0 ≤ -q := by linarith
    have hswap : pyInt q = -pyInt (-q) := by
      rw [pyInt_neg, neg_neg]
    rw [hswap, abs_neg, pyInt_eq_floor _ hq',
      abs_of_nonneg (Int.floor_nonneg.mpr hq')]
    calc ⌊-q⌋ ≤ ⌊(M:ℚ)⌋ := Int.floor_le_floor ((abs_of_neg hq) ▸ h)
      _ = M := Int.floor_natCast M

theorem quantize16_bounds (xs : List ℚ) (h : ∀ x ∈ xs, -1 ≤ x ∧ x ≤ 1) :
    ∀ z ∈ quantize16 xs, -32767 ≤ z ∧ z ≤ 32767 := by
  intro z hz
  obtain ⟨x, hx, rfl⟩ := List.mem_map.mp hz
  obtain ⟨h1, h2⟩ := h x hx
  have habs : |x * 32767| ≤ ((32767:ℕ):ℚ) := by
    rw [abs_mul, abs_of_nonneg (by norm_num : (0:ℚ) ≤ 32767)]
    push_cast
    nlinarith [abs_le.mpr ⟨h1, h2⟩]
  have hb := pyInt_abs_le (x * 32767) 32767 habs
  rw [abs_le] at hb
  obtain ⟨hb1, hb2⟩ := hb
  push_cast at hb1 hb2
  exact ⟨by exact_mod_cast hb1, by exact_mod_cast hb2⟩

/-- C1: whenever the pre-clip peak of the mastered mix is positive,
peak-normalization scales the signal so that its maximum absolute value is
exactly `0.95`; the subsequent hard clip keeps every sample in `[-1, 1]`;
and after 16-bit quantization every persisted sample lies in
`[-32767, 32767]` — never beyond full scale. -/
theorem mastering_output_spec (xs : List ℚ) (h : 0 < peakAbs xs) :
    peakAbs (normalize95 xs) = 19/20
  ∧ (∀ y ∈ clip1 (normalize95 xs), -1 ≤ y ∧ y ≤ 1)
  ∧ (∀ z ∈ finalizeMaster xs, -32767 ≤ z ∧ z ≤ 32767) := by
  refine ⟨normalize95_peak xs h, clip1_bounds _, ?_⟩
  unfold finalizeMaster
  exact quantize16_bounds _ (clip1_bounds _)

theorem mastering_output_spec_witness :
    0 < peakAbs [(1:ℚ)/2] ∧ peakAbs (normalize95 [(1:ℚ)/2]) = 19/20 := by
  have hp : 0 < peakAbs [(1:ℚ)/2] := by
    rw [show peakAbs [(1:ℚ)/2] = max |(1:ℚ)/2| 0 from rfl,
      abs_of_nonneg (by norm_num : (0:ℚ) ≤ 1/2)]
    rw [max_eq_left (by norm_num : (0:ℚ) ≤ 1/2)]
    norm_num
  exact ⟨hp, (mastering_output_spec [(1:ℚ)/2] hp).1⟩

@[simp] theorem overlayAdd_length (buf : List ℚ) (start : ℕ) (seg : List ℚ)
    (gain : ℚ) : (overlayAdd buf start seg gain).length = buf.length := by
  simp [overlayAdd]

theorem nSamples_nonneg (D : ℚ) (hD : 0 ≤ D) : 0 ≤ nSamples 44100 D := by
  unfold nSamples
  rw [pyInt_eq_floor _ (by positivity)]
  exact Int.floor_nonneg.mpr (by positivity)

theorem nSamples_two : (nSamples 44100 (2:ℚ)).toNat = 88200 := by
  unfold nSamples
  rw [show ((44100:ℕ):ℚ) * 2 = ((88200:ℕ):ℚ) by push_cast; norm_num, pyInt_natCast]
  rfl

theorem nSamples_four : (nSamples 44100 (4:ℚ)).toNat = 176400 := by
  unfold nSamples
  rw [show ((44100:ℕ):ℚ) * 4 = ((176400:ℕ):ℚ) by push_cast; norm_num, pyInt_natCast]
  rfl

theorem nSamples_bass (bpm : ℕ) (h1 : 1 ≤ bpm) (h2 : bpm ≤ 1200) :
    4410 ≤ (nSamples 44100 (60 / (bpm:ℚ) * 2)).toNat := by
  have hb0 : (0:ℚ) < (bpm:ℚ) := by exact_mod_cast h1
  have hq0 : (0:ℚ) ≤ ((44100:ℕ):ℚ) * (60 / (bpm:ℚ) * 2) := by positivity
  have hfl : (4410:ℤ) ≤ nSamples 44100 (60 / (bpm:ℚ) * 2) := by
    unfold nSamples
    rw [pyInt_eq_floor _ hq0]
    rw [Int.le_floor]
    have hval : ((44100:ℕ):ℚ) * (60 / (bpm:ℚ) * 2) = 5292000 / (bpm:ℚ) := by
      push_cast
      field_simp
      ring
    rw [hval, le_div_iff₀ hb0]
    have h2' : (bpm:ℚ) ≤ 1200 := by exact_mod_cast h2
    push_cast
    nlinarith [h2']
  omega

theorem melodyLoop_ok (osc : ℚ → ℚ) (n : ℕ) (l : List (ℕ × ℚ)) :
    ∀ buf : List ℚ, buf.length = n →
    ∃ out, melodyLoop osc n l buf = Except.ok out ∧ out.length = n := by
  induction l with
  | nil => exact fun buf hb => ⟨buf, rfl, hb⟩
  | cons p rest ih =>
    intro buf hb
    obtain ⟨i, f⟩ := p
    simp only [melodyLoop]
    by_cases hbreak : n ≤ i * 2 * 44100
    · rw [if_pos hbreak]
      exact ⟨buf, rfl, hb⟩
    · rw [if_neg hbreak]
      obtain ⟨note, hnote, _⟩ := (generateInstrument_spec osc f 2 "synth").1
        (by rw [nSamples_two]; norm_num)
      rw [hnote, exBind_ok]
      exact ih _ (by rw [overlayAdd_length, hb])

theorem padLoop_ok (osc : ℚ → ℚ) (freqs : List ℚ) (n : ℕ) (c : ℕ) :
    ∀ (i : ℕ) (buf : List ℚ), buf.length = n →
    ∃ out, padLoop osc freqs n i c buf = Except.ok out ∧ out.length = n := by
  induction c with
  | zero => exact fun i buf hb => ⟨buf, rfl, hb⟩
  | succ c ih =>
    intro i buf hb
    simp only [padLoop]
    by_cases hbreak : n ≤ i * 4 * 44100
    · rw [if_pos hbreak]
      exact ⟨buf, rfl, hb⟩
    · rw [if_neg hbreak]
      obtain ⟨root, hroot, _⟩ :=
        (generateInstrument_spec osc (freqs.getD (i % freqs.length) 0) 4 "pad").1
          (by rw [nSamples_four]; norm_num)
      obtain ⟨third, hthird, _⟩ :=
        (generateInstrument_spec osc (freqs.getD ((i + 2) % freqs.length) 0) 4 "pad").1
          (by rw [nSamples_four]; norm_num)
      rw [hroot, exBind_ok, hthird, exBind_ok]
      exact ih _ _ (by rw [overlayAdd_length, hb])

theorem bassLoop_ok (osc : ℚ → ℚ) (base : ℚ) (bpm n : ℕ)
    (h1 : 1 ≤ bpm) (h2 : bpm ≤ 1200) (c : ℕ) :
    ∀ (i : ℕ) (buf : List ℚ), buf.length = n →
    ∃ out, bassLoop osc base bpm n i c buf = Except.ok out ∧ out.length = n := by
  induction c with
  | zero => exact fun i buf hb => ⟨buf, rfl, hb⟩
  | succ c ih =>
    intro i buf hb
    simp only [bassLoop]
    by_cases hbreak : (n:ℚ) ≤ (i:ℚ) * (60 / (bpm:ℚ) * 2) * 44100
    · rw [if_pos hbreak]
      exact ⟨buf, rfl, hb⟩
    · rw [if_neg hbreak]
      obtain ⟨note, hnote, _⟩ :=
        (generateInstrument_spec osc (base * (1/2)) (60 / (bpm:ℚ) * 2) "bass").1
          (nSamples_bass bpm h1 h2)
      rw [hnote, exBind_ok]
      exact ih _ _ (by rw [overlayAdd_length, hb])

theorem kickLoop_length (osc expO : ℚ → ℚ) (noise : ℕ → ℕ → ℚ) (bpm n : ℕ)
    (c : ℕ) : ∀ (i : ℕ) (buf : List ℚ),
    (kickLoop osc expO noise bpm n i c buf).length = buf.length := by
  induction c with
  | zero => exact fun i buf => rfl
  | succ c ih =>
    intro i buf
    simp only [kickLoop]
    rw [ih]
    split <;> simp

theorem snareLoop_length (osc expO : ℚ → ℚ) (noise : ℕ → ℕ → ℚ) (bpm n : ℕ)
    (c : ℕ) : ∀ (i : ℕ) (buf : List ℚ),
    (snareLoop osc expO noise bpm n i c buf).length = buf.length := by
  induction c with
  | zero => exact fun i buf => rfl
  | succ c ih =>
    intro i buf
    simp only [snareLoop]
    rw [ih]
    split <;> simp

theorem hihatLoop_length (expO : ℚ → ℚ) (noise : ℕ → ℕ → ℚ) (bpm n : ℕ)
    (c : ℕ) : ∀ (i : ℕ) (buf : List ℚ),
    (hihatLoop expO noise bpm n i c buf).length = buf.length := by
  induction c with
  | zero => exact fun i buf => rfl
  | succ c ih =>
    intro i buf
    simp only [hihatLoop]
    rw [ih]
    split <;> split <;> simp

theorem applyFades_length (xs : List ℚ) : (applyFades xs).length = xs.length := by
  unfold applyFades
  split <;> simp

/-- C9: for every requested duration `D ≥ 0`, any genre tempo
(`1 ≤ bpm ≤ 1200` — the genre table only produces 70-130), any mood and any
length-preserving bus pedalboard, the Arrangement Mixer's output has exactly
`int(44100 * D)` samples, which is within 1 sample (far inside the 1.5 s =
66150-sample fade window) of `round(D * 44100)`. -/
theorem background_music_length (board : List ℚ → List ℚ)
    (hb : ∀ xs, (board xs).length = xs.length)
    (osc expO : ℚ → ℚ) (noiseK noiseS noiseH : ℕ → ℕ → ℚ)
    (D : ℚ) (bpm : ℕ) (mood : String)
    (hD : 0 ≤ D) (hbpm1 : 1 ≤ bpm) (hbpm2 : bpm ≤ 1200) :
    ∃ music, generateBackgroundMusic board osc expO noiseK noiseS noiseH D bpm mood =
        Except.ok music
      ∧ music.length = (nSamples 44100 D).toNat
      ∧ ((music.length : ℤ) - round (((44100:ℕ):ℚ) * D)).natAbs ≤ 66150 := by
  have hpos := nSamples_nonneg D hD
  unfold generateBackgroundMusic
  rw [if_neg (by omega)]
  obtain ⟨melody, hm, hml⟩ := melodyLoop_ok osc (nSamples 44100 D).toNat
    ((List.replicate (natCeil (D / (((get_melody_freqs_for_mood mood).2.length : ℚ) * 2)))
      (get_melody_freqs_for_mood mood).2).flatten.enum)
    (List.replicate (nSamples 44100 D).toNat 0) (List.length_replicate _ _)
  rw [hm, exBind_ok]
  obtain ⟨pad, hp, hpl⟩ := padLoop_ok osc (get_melody_freqs_for_mood mood).2
    (nSamples 44100 D).toNat (natCeil (D / 4)) 0
    (List.replicate (nSamples 44100 D).toNat 0) (List.length_replicate _ _)
  rw [hp, exBind_ok]
  obtain ⟨bass, hba, hbl⟩ := bassLoop_ok osc (get_melody_freqs_for_mood mood).1
    bpm (nSamples 44100 D).toNat hbpm1 hbpm2 (natCeil (D / (60 / (bpm:ℚ) * 2))) 0
    (List.replicate (nSamples 44100 D).toNat 0) (List.length_replicate _ _)
  rw [hba, exBind_ok]
  refine ⟨_, rfl, ?_, ?_⟩
  · simp only [applyFades_length, hb, List.length_zipWith, hihatLoop_length,
      snareLoop_length, kickLoop_length, hml, hpl, hbl, List.length_replicate,
      min_self]
  · simp only [applyFades_length, hb, List.length_zipWith, hihatLoop_length,
      snareLoop_length, kickLoop_length, hml, hpl, hbl, List.length_replicate,
      min_self]
    rw [Int.toNat_of_nonneg hpos]
    have hfloor : nSamples 44100 D = ⌊((44100:ℕ):ℚ) * D⌋ := by
      unfold nSamples
      exact pyInt_eq_floor _ (by positivity)
    have h1 : ⌊((44100:ℕ):ℚ) * D⌋ ≤ round (((44100:ℕ):ℚ) * D) := by
      rw [round_eq]
      exact Int.floor_le_floor (by linarith)
    have h2 : round (((44100:ℕ):ℚ) * D) ≤ ⌊((44100:ℕ):ℚ) * D⌋ + 1 := by
      rw [round_eq, ← Int.floor_add_one]
      exact Int.floor_le_floor (by linarith)
    rw [hfloor]
    omega

theorem background_music_length_witness :
    ∃ music, generateBackgroundMusic id (fun _ => 0) (fun _ => 0)
        (fun _ _ => 0) (fun _ _ => 0) (fun _ _ => 0) 4 128 "edm" = Except.ok music
      ∧ music.length = 176400 := by
  obtain ⟨music, hm, hlen, _⟩ := background_music_length id (fun _ => rfl)
    (fun _ => 0) (fun _ => 0) (fun _ _ => 0) (fun _ _ => 0) (fun _ _ => 0)
    4 128 "edm" (by norm_num) (by norm_num) (by norm_num)
  exact ⟨music, hm, by rw [hlen, nSamples_four]⟩

theorem vocalPipeline_load_fail (load : String → Except Unit (List ℚ))
    (ps : ℚ → List ℚ → Except Unit (List ℚ))
    (board : List ℚ → Except Unit (List ℚ))
    (osc lg : ℚ → ℚ) (ts : ℚ → List ℚ → List ℚ) (draws : ℕ → ℚ)
    (writeOk : Bool) (path mood : String)
    (h : load path = Except.error ()) :
    vocalPipeline load ps board osc lg ts draws writeOk path mood =
      Except.error () := by
  unfold vocalPipeline
  rw [h]
  rfl

theorem vocalPipeline_write_fail (load : String → Except Unit (List ℚ))
    (ps : ℚ → List ℚ → Except Unit (List ℚ))
    (board : List ℚ → Except Unit (List ℚ))
    (osc lg : ℚ → ℚ) (ts : ℚ → List ℚ → List ℚ) (draws : ℕ → ℚ)
    (path mood : String) :
    vocalPipeline load ps board osc lg ts draws false path mood =
      Except.error () := by
  unfold vocalPipeline
  cases hl : load path with
  | error e => cases e; rfl
  | ok y =>
    rw [exBind_ok]
    cases ht : applySingingTiming ts draws y 44100 with
    | none => rfl
    | some y1 =>
      simp only [optToExcept]
      rw [exBind_ok]
      cases hps : ps (semitonesShift lg mood) y1 with
      | error e => cases e; rfl
      | ok y2 =>
        rw [exBind_ok]
        cases hb : board (vibrato osc y2) with
        | error e => cases e; rfl
        | ok y3 =>
          rw [exBind_ok]
          cases hn : pyNormalize y3 with
          | error e => cases e; rfl
          | ok y4 => rw [exBind_ok]; rfl

/-- C7: `apply_vocal_effects` is failure-atomic: the returned flag is
`False` exactly when some stage of the pipeline fails, and in that case the
file system is completely untouched; no path other than the input path is
ever written; a failing load or a failing write both yield `False`; and only
when every stage has succeeded is the (normalized) result written to the
input path with `True` returned — there is no partial write. -/
theorem vocal_effects_failure_atomic (load : String → Except Unit (List ℚ))
    (ps : ℚ → List ℚ → Except Unit (List ℚ))
    (board : List ℚ → Except Unit (List ℚ))
    (osc lg : ℚ → ℚ) (ts : ℚ → List ℚ → List ℚ) (draws : ℕ → ℚ)
    (writeOk : Bool) (fs : String → List ℚ) (path mood : String) :
    ((applyVocalEffects load ps board osc lg ts draws writeOk fs path mood).fst = false ↔
      vocalPipeline load ps board osc lg ts draws writeOk path mood = Except.error ())
  ∧ ((applyVocalEffects load ps board osc lg ts draws writeOk fs path mood).fst = false →
      (applyVocalEffects load ps board osc lg ts draws writeOk fs path mood).snd = fs)
  ∧ (∀ p, p ≠ path →
      (applyVocalEffects load ps board osc lg ts draws writeOk fs path mood).snd p = fs p)
  ∧ (load path = Except.error () →
      (applyVocalEffects load ps board osc lg ts draws writeOk fs path mood).fst = false)
  ∧ (writeOk = false →
      (applyVocalEffects load ps board osc lg ts draws writeOk fs path mood).fst = false)
  ∧ (∀ y, vocalPipeline load ps board osc lg ts draws writeOk path mood = Except.ok y →
      applyVocalEffects load ps board osc lg ts draws writeOk fs path mood =
        (true, fun p => if p = path then y else fs p)) := by
  cases hp : vocalPipeline load ps board osc lg ts draws writeOk path mood with
  | error e =>
    cases e
    refine ⟨?_, ?_, ?_, ?_, ?_, ?_⟩ <;> simp [applyVocalEffects, hp]
  | ok y =>
    refine ⟨?_, ?_, ?_, ?_, ?_, ?_⟩
    · simp [applyVocalEffects, hp]
    · simp [applyVocalEffects, hp]
    · intro p hps
      simp [applyVocalEffects, hp, hps]
    · intro hl
      rw [vocalPipeline_load_fail load ps board osc lg ts draws writeOk path mood hl] at hp
      exact Except.noConfusion hp
    · intro hw
      rw [hw, vocalPipeline_write_fail load ps board osc lg ts draws path mood] at hp
      exact Except.noConfusion hp
    · intro y' hy'
      injection hy' with hyy
      subst hyy
      simp [applyVocalEffects, hp]

theorem vocal_effects_failure_atomic_witness :
    (applyVocalEffects (fun _ => Except.error ()) (fun _ y => Except.ok y)
      (fun y => Except.ok y) (fun _ => 0) (fun _ => 0) (fun _ s => s)
      (fun _ => 1) true (fun _ => []) "voc.wav" "calm").fst = false ∧
    (applyVocalEffects (fun _ => Except.error ()) (fun _ y => Except.ok y)
      (fun y => Except.ok y) (fun _ => 0) (fun _ => 0) (fun _ s => s)
      (fun _ => 1) true (fun _ => []) "voc.wav" "calm").snd =
      (fun _ => ([] : List ℚ)) := by
  have h := vocal_effects_failure_atomic (fun _ => Except.error ())
    (fun _ y => Except.ok y) (fun y => Except.ok y) (fun _ => 0) (fun _ => 0)
    (fun _ s => s) (fun _ => 1) true (fun _ => []) "voc.wav" "calm"
  have h1 := h.2.2.2.1 rfl
  exact ⟨h1, h.2.1 h1⟩

/-- C5: the mood resolver matches case-insensitively by substring against
five ordered keyword groups, first match wins: "very calm day" hits the calm
group (base 220), "XYZ-unknown" falls through to the default (base 261.63),
"DARK edm" shows case-insensitive matching with group priority (the
energetic group, which contains "edm", is tested before the dark group), and
each group fires exactly when it matches and no earlier group does. -/
theorem mood_resolver_spec :
    get_melody_freqs_for_mood ("very calm day") = (220, [220, 247, 277, 330, 370])
  ∧ get_melody_freqs_for_mood ("XYZ-unknown") = (26163/100, [262, 294, 330, 349, 392])
  ∧ get_melody_freqs_for_mood ("DARK edm") = (440, [440, 494, 523, 587, 659])
  ∧ (∀ mood, moodHasAny (strLower mood) ["calm", "peaceful", "serene", "relaxed", "lo-fi"] = true →
      get_melody_freqs_for_mood mood = (220, [220, 247, 277, 330, 370]))
  ∧ (∀ mood, moodHasAny (strLower mood) ["calm", "peaceful", "serene", "relaxed", "lo-fi"] = false →
      moodHasAny (strLower mood) ["energetic", "exciting", "upbeat", "edm", "pop"] = true →
      get_melody_freqs_for_mood mood = (440, [440, 494, 523, 587, 659]))
  ∧ (∀ mood, moodHasAny (strLower mood) ["calm", "peaceful", "serene", "relaxed", "lo-fi"] = false →
      moodHasAny (strLower mood) ["energetic", "exciting", "upbeat", "edm", "pop"] = false →
      moodHasAny (strLower mood) ["dark", "mysterious", "ominous", "haunting"] = true →
      get_melody_freqs_for_mood mood = (110, [110, 123, 131, 147, 165]))
  ∧ (∀ mood, moodHasAny (strLower mood) ["calm", "peaceful", "serene", "relaxed", "lo-fi"] = false →
      moodHasAny (strLower mood) ["energetic", "exciting", "upbeat", "edm", "pop"] = false →
      moodHasAny (strLower mood) ["dark", "mysterious", "ominous", "haunting"] = false →
      moodHasAny (strLower mood) ["cosmic", "ethereal", "dreamy", "ambient", "jazz"] = true →
      get_melody_freqs_for_mood mood = (330, [330, 370, 415, 440, 494]))
  ∧ (∀ mood, moodHasAny (strLower mood) ["calm", "peaceful", "serene", "relaxed", "lo-fi"] = false →
      moodHasAny (strLower mood) ["energetic", "exciting", "upbeat", "edm", "pop"] = false →
      moodHasAny (strLower mood) ["dark", "mysterious", "ominous", "haunting"] = false →
      moodHasAny (strLower mood) ["cosmic", "ethereal", "dreamy", "ambient", "jazz"] = false →
      get_melody_freqs_for_mood mood = (26163/100, [262, 294, 330, 349, 392])) := by
  refine ⟨rfl, rfl, rfl, ?_, ?_, ?_, ?_, ?_⟩ <;>
    intro mood <;> intros <;>
    simp_all [get_melody_freqs_for_mood]

theorem mood_resolver_spec_witness :
    get_melody_freqs_for_mood ("CALM") = (220, [220, 247, 277, 330, 370]) :=
  mood_resolver_spec.2.2.2.1 ("CALM") rfl

/-- C4: for every mood (and any value of the `np.log2` oracle) the vocal
pitch shift equals `max(4.0, 0.7 * (12 * log2(target/base)) + 4.0)` where
`target` is the middle element (index 2 of 5) of the resolved scale's degree
list and `base` is the resolved base frequency; in particular the shift is
always at least +4 semitones. -/
theorem pitch_shift_formula (lg : ℚ → ℚ) (mood : String) :
    semitonesShift lg mood =
      max 4 ((7/10) * (12 * lg ((get_melody_freqs_for_mood mood).2.getD 2 0 /
        (get_melody_freqs_for_mood mood).1)) + 4)
  ∧ 4 ≤ semitonesShift lg mood := by
  have hl : (get_melody_freqs_for_mood mood).2.length / 2 = 2 := by
    rw [resolver_degrees_length]
  constructor
  · unfold semitonesShift
    rw [hl]
    congr 1
    ring
  · exact le_max_left _ _

end Songify
